import Mathlib

/-!
Verification of the stackification pass (`codegen/masm/src/stackify/pass.rs`).

The definitions below are a shallow embedding of the pass. Pure Rust
functions become Lean functions; loops become fuel-indexed recursion;
Rust panics (`panic!`, `assert!`, `todo!`, `unimplemented!`, `unreachable!`,
`expect`) become `Except Panic` error values. Machine integers are `Nat`/`Int`
with explicit `% 2^32` where wrapping matters.

Data structures that live in sibling crates of the repository
(`OperandStack`, the MASM `Op` surface, `Immediate`, the dependency graph
node/edge arena) are not under `src/`; they are modelled from the spec
(sections 3, 4.1 and 6), as marked in their doc comments.
-/

/-- SSA values are identifiers. -/
abbrev Value := Nat

/-- Field elements; only the values pushed by the pass matter, so a `Nat` model suffices. -/
abbrev Felt := Nat

/-- Modelled from the spec: the immediate values of the IR (section 6).
Unsigned and boolean payloads carry their numeric value; signed and
floating-point payloads are opaque to the pass (it rejects them before
inspecting the payload), so they carry a plain placeholder. -/
inductive Immediate where
  | i1 (b : Bool)
  | u8 (i : Nat)
  | u16 (i : Nat)
  | u32 (i : Nat)
  | u64 (i : Nat)
  | felt (i : Felt)
  | i8 (i : Int)
  | i16 (i : Int)
  | i32 (i : Int)
  | i64 (i : Int)
  | i128 (i : Int)
  | f64 (bits : Nat)
  deriving DecidableEq, Repr

/-- Modelled from the spec: the target-VM op surface (section 6) restricted to
the ops the pass emits. `Push2` carries its two-element array as `lo`, `hi`. -/
inductive Op where
  | Push (f : Felt)
  | PushU8 (i : Nat)
  | PushU32 (i : Nat)
  | Push2 (lo hi : Felt)
  | Drop
  | Dropw
  | Dup (i : Nat)
  | Swap (i : Nat)
  | Movup (i : Nat)
  | Movdn (i : Nat)
  | MemLoadImm (addr : Nat)
  | If (thenBlk elseBlk : Nat)
  | While (body : Nat)
  deriving DecidableEq, Repr

/-- Modelled from the spec: an operand token is a named value or a constant
immediate (section 3). Booleans pushed by loop framing become `const (i1 b)`. -/
inductive Operand where
  | value (v : Value)
  | const (i : Immediate)
  deriving DecidableEq, Repr

/-- The Rust panic/abort outcomes of the pass, as error values of the embedding. -/
inductive Panic where
  | todo
  | notImplemented
  | assertFail
  | unreachableCode
  | prerequisiteViolation
  deriving DecidableEq, Repr

/-- Modelled from the spec: the simulated operand stack is an ordered sequence
of operand tokens with index 0 on top (section 3). -/
abbrev OperandStack := List Operand

/-- Modelled from the spec: `find(v)` returns the smallest index whose token
names `v` (section 4.1). -/
def OperandStack.find? (v : Value) (s : OperandStack) : Option Nat :=
  s.findIdx? fun o => match o with
    | .value w => w = v
    | .const _ => false

/-- Modelled from the spec: `dup(i)` clones position `i` onto the top (section 3). -/
def OperandStack.dup (i : Nat) (s : OperandStack) : OperandStack :=
  match s.get? i with
  | some x => x :: s
  | none => s

/-- Modelled from the spec: `swap(i)` exchanges the top with position `i` (section 3). -/
def OperandStack.swap (i : Nat) (s : OperandStack) : OperandStack :=
  match s.get? 0, s.get? i with
  | some a, some b => (s.set 0 b).set i a
  | _, _ => s

/-- Modelled from the spec: `move-up(i)` removes position `i` and pushes it on top (section 3). -/
def OperandStack.movup (i : Nat) (s : OperandStack) : OperandStack :=
  match s.get? i with
  | some x => x :: s.eraseIdx i
  | none => s

/-- Insert an element at position `i` of a list. -/
def listInsertAt (i : Nat) (x : Operand) (s : List Operand) : List Operand :=
  s.take i ++ x :: s.drop i

/-- Modelled from the spec: `move-down(i)` removes the top and inserts it at
position `i` (section 3). -/
def OperandStack.movdn (i : Nat) (s : OperandStack) : OperandStack :=
  match s with
  | [] => []
  | x :: rest => listInsertAt i x rest

/-- Modelled from the spec: `dropn(k)` drops the top `k` operands (section 3). -/
def OperandStack.dropn (k : Nat) (s : OperandStack) : OperandStack :=
  s.drop k

/-- `immediate_to_push_op`: convert an immediate value to the op which pushes
it onto the operand stack. Signed integers and floating point hit
`unimplemented!`, modelled as the distinct `Panic.notImplemented` signal. -/
def immediate_to_push_op (imm : Immediate) : Except Panic Op :=
  match imm with
  | .i1 i => .ok (.PushU8 (if i then 1 else 0))
  | .u8 i => .ok (.PushU8 i)
  | .u16 i => .ok (.PushU32 i)
  | .u32 i => .ok (.PushU32 i)
  | .u64 i => .ok (.Push2 (i % 2 ^ 32) (i / 2 ^ 32))
  | .felt i => .ok (.Push i)
  | .i8 _ | .i16 _ | .i32 _ | .i64 _ | .i128 _ => .error .notImplemented
  | .f64 _ => .error .notImplemented

/-- `copy_operand_to_position`: copy the `n`th operand and make it the `m`th,
returning the ops emitted and the updated simulated stack. -/
def copy_operand_to_position (n m : Nat) (is_commutative_binary_operand : Bool)
    (stack : OperandStack) : List Op × OperandStack :=
  if m = 0 then
    ([.Dup n], stack.dup n)
  else if m = 1 then
    if is_commutative_binary_operand then
      ([.Dup n], stack.dup n)
    else
      ([.Dup n, .Swap 1], (stack.dup n).swap 1)
  else
    ([.Dup n, .Movdn m], (stack.dup n).movdn m)

/-- `move_operand_to_position`: make the `n`th operand on the stack the `m`th,
returning the ops emitted and the updated simulated stack. The match arms are
in the source's order: `n == m`, then `(1,0)|(0,1)`, then `(_,0)`, `(_,1)`,
then the general case. -/
def move_operand_to_position (n m : Nat) (is_commutative_binary_operand : Bool)
    (stack : OperandStack) : List Op × OperandStack :=
  if n = m then
    ([], stack)
  else if (n = 1 ∧ m = 0) ∨ (n = 0 ∧ m = 1) then
    if is_commutative_binary_operand then
      ([], stack)
    else
      ([.Swap 1], stack.swap 1)
  else if m = 0 then
    ([.Movup n], stack.movup n)
  else if m = 1 then
    ([.Movup n, .Swap 1], (stack.movup n).swap 1)
  else
    ([.Movup n, .Movdn m], (stack.movup n).movdn m)

/-- `truncate_stack`: remove all but the top `n` operands, emitting
`excess / 4` drop-words followed by `excess % 4` drops. -/
def truncate_stack (n : Nat) (stack : OperandStack) : List Op × OperandStack :=
  let m := stack.length - n
  if m > 0 then
    (List.replicate (m / 4) Op.Dropw ++ List.replicate (m % 4) Op.Drop, stack.dropn m)
  else
    ([], stack)

/-- `drop_operand_at_position`: remove the `n`th operand from the stack. -/
def drop_operand_at_position (n : Nat) (stack : OperandStack) : List Op × OperandStack :=
  match n with
  | 0 => ([.Drop], stack.tail)
  | 1 => ([.Swap 1, .Drop], (stack.swap 1).tail)
  | n => ([.Movup n, .Drop], (stack.movup n).tail)

/-- The drop-collection phase of `drop_unused_operands_at`: walk the stack
top-down; a named value is kept when it is in `used` or live at `pp` and not a
duplicate; everything else (including every constant) is dropped at its
position. Returns the ops computed (pre-fusion) and the updated stack. The
`fuel` bounds the source's `while` loop; each iteration either removes an
operand or advances `index`. -/
def drop_unused_collect (used : List Value) (live_at : Value → Bool) :
    Nat → Nat → List Value → OperandStack → List Op → OperandStack × List Op
  | 0, _, _, stack, ops => (stack, ops)
  | fuel + 1, index, seen, stack, ops =>
    if stack.isEmpty ∨ stack.length ≤ index then (stack, ops)
    else
      match stack.get? index with
      | none => (stack, ops)
      | some (.value v) =>
        let keep := used.contains v ∨ live_at v
        let is_duplicate := seen.contains v
        let seen := v :: seen
        if is_duplicate ∨ ¬keep then
          match index with
          | 0 =>
            drop_unused_collect used live_at fuel index seen stack.tail (ops ++ [.Drop])
          | 1 =>
            drop_unused_collect used live_at fuel index seen ((stack.swap 1).tail)
              (ops ++ [.Swap 1, .Drop])
          | n =>
            drop_unused_collect used live_at fuel index seen ((stack.movup n).tail)
              (ops ++ [.Movup n, .Drop])
        else
          drop_unused_collect used live_at fuel (index + 1) seen stack ops
      | some (.const _) =>
        match index with
        | 0 =>
          drop_unused_collect used live_at fuel index seen stack.tail (ops ++ [.Drop])
        | 1 =>
          drop_unused_collect used live_at fuel index seen ((stack.swap 1).tail)
            (ops ++ [.Swap 1, .Drop])
        | n =>
          drop_unused_collect used live_at fuel index seen ((stack.movup n).tail)
            (ops ++ [.Movup n, .Drop])

/-- The drop-fusion phase of `drop_unused_operands_at`: drops are buffered in
`dropw`; a drop arriving when the buffer already holds four emits a `Dropw`
and clears the buffer (the arriving drop itself is not buffered); a non-drop
op flushes the buffer before being emitted; a final flush appends whatever
remains buffered. -/
def drop_fuse : List Op → List Op → List Op
  | [], dropw => dropw
  | .Drop :: rest, dropw =>
    if dropw.length < 4 then
      drop_fuse rest (dropw ++ [.Drop])
    else
      .Dropw :: drop_fuse rest []
  | op :: rest, dropw => dropw ++ op :: drop_fuse rest []

/-- `drop_unused_operands_at`: remove operands not live at `pp` (here the
liveness oracle restricted to that program point) and not in `used`, plus
duplicates, then emit the collected drops through the fusion buffer. -/
def drop_unused_operands_at (used : List Value) (live_at : Value → Bool)
    (stack : OperandStack) : OperandStack × List Op :=
  let r := drop_unused_collect used live_at (2 * stack.length + 1) 0 [] stack []
  (r.1, drop_fuse r.2 [])

/-- The net number of operand-stack slots removed by a sequence of ops made of
drops and drop-words. -/
def ops_drop_count (ops : List Op) : Nat :=
  ops.foldl (fun acc op => match op with
    | .Drop => acc + 1
    | .Dropw => acc + 4
    | _ => acc) 0

/-- The inner cycle-following loop of `prepare_stack_arguments`: starting from
stack position `j`, follow the permutation cycle, recording a `Swap` for each
in-range step and a final `Dup`/`Movup` when the chain leaves the top-`n`
window. `expected` is the argument value that started the cycle; liveness of
`expected` decides `Dup` versus `Movup`. -/
def prepare_args_cycle (live_after : Value → Bool) (args : List Value) (n : Nat)
    (stack : OperandStack) (expected : Value) :
    Nat → Nat → List Nat → List Op → Except Panic (List Nat × List Op)
  | 0, _, _, _ => .error .assertFail
  | fuel + 1, j, visited, ops =>
    if visited.contains j then .ok (visited, ops)
    else
      let visited := j :: visited
      if n ≤ j then
        if live_after expected then
          .ok (visited, ops ++ [.Dup j])
        else
          .ok (visited, ops ++ [.Movup j])
      else
        let ops := ops ++ [.Swap j]
        match OperandStack.find? (args.getD j 0) stack with
        | none => .error .assertFail
        | some j2 => prepare_args_cycle live_after args n stack expected fuel j2 visited ops

/-- The outer loop of `prepare_stack_arguments` over argument indices
`i = 0, …, n-1`, accumulating the minimal op sequence by cycle decomposition. -/
def prepare_args_loop (live_after : Value → Bool) (args : List Value) (n : Nat)
    (stack : OperandStack) (i : Nat) (visited : List Nat) (ops : List Op) :
    Except Panic (List Op) :=
  if _h : n ≤ i then .ok ops
  else
    if visited.contains i then
      prepare_args_loop live_after args n stack (i + 1) visited ops
    else
      let visited := i :: visited
      match OperandStack.find? (args.getD i 0) stack with
      | none => .error .assertFail
      | some j =>
        match prepare_args_cycle live_after args n stack (args.getD i 0)
            (n + stack.length + 1) j visited ops with
        | .error e => .error e
        | .ok (visited2, ops2) =>
          prepare_args_loop live_after args n stack (i + 1) visited2 ops2
termination_by n - i

/-- Apply the computed permutation ops to the simulated stack, mirroring the
source's second loop (only `Dup`, `Movup` and `Swap` can occur). -/
def apply_stack_ops (ops : List Op) (stack : OperandStack) : OperandStack :=
  ops.foldl (fun s op => match op with
    | .Dup i => s.dup i
    | .Movup i => s.movup i
    | .Swap i => s.swap i
    | _ => s) stack

/-- `prepare_stack_arguments`: arrange `args` on top of the stack with
`args[0]` topmost; a single argument is copied or moved directly, multiple
arguments go through cycle decomposition. `live_after` is the liveness
oracle's `is_live_after(·, Inst(inst))`. -/
def prepare_stack_arguments (live_after : Value → Bool) (args : List Value)
    (stack : OperandStack) : Except Panic (List Op × OperandStack) :=
  match args with
  | [] => .ok ([], stack)
  | [arg] =>
    match OperandStack.find? arg stack with
    | none => .error .assertFail
    | some pos =>
      if live_after arg then
        .ok (copy_operand_to_position pos 0 false stack)
      else
        .ok (move_operand_to_position pos 0 false stack)
  | _ =>
    match prepare_args_loop live_after args args.length stack 0 [] [] with
    | .error e => .error e
    | .ok ops => .ok (ops, apply_stack_ops ops stack)

/-- `MasmEmitter::controlling_loop_level`: the loop level of the controlling
block when one is set, otherwise that of the block being emitted. -/
def controlling_loop_level (controlling : Option Nat) (emitting : Nat)
    (loop_level : Nat → Nat) : Nat :=
  match controlling with
  | some src => loop_level src
  | none => loop_level emitting

/-- The `Instruction::RetImm` arm of `MasmEmitter::emit_inst`: truncate the
operand stack to empty, push the immediate, then push one zero per
controlling loop level. -/
def emit_ret_imm (controlling : Option Nat) (emitting : Nat)
    (loop_level : Nat → Nat) (arg : Immediate) (stack : OperandStack) :
    Except Panic (List Op × OperandStack) :=
  let level := controlling_loop_level controlling emitting loop_level
  let t := truncate_stack 0 stack
  match immediate_to_push_op arg with
  | .error e => .error e
  | .ok pushOp =>
    .ok (t.1 ++ [pushOp] ++ List.replicate level (Op.Push 0),
      List.replicate level (Operand.const (.i1 false)) ++ Operand.const arg :: t.2)

/-- The `Instruction::Ret` arm of `MasmEmitter::emit_inst`: exactly one return
value which must already be on top of the stack; when anything else is on the
stack, swap the return value to the bottom and truncate to size 1; then push
one zero per controlling loop level. The `Swap` operand must fit in a `u8`. -/
def emit_ret (controlling : Option Nat) (emitting : Nat)
    (loop_level : Nat → Nat) (args : List Value) (stack : OperandStack) :
    Except Panic (List Op × OperandStack) :=
  match args with
  | [arg] =>
    if stack.head? = some (Operand.value arg) then
      let level := controlling_loop_level controlling emitting loop_level
      let stack_size := stack.length
      if stack_size > 1 then
        let extra := stack_size - 1
        if extra < 256 then
          let stack1 := stack.swap extra
          let t := truncate_stack 1 stack1
          .ok (Op.Swap extra :: t.1 ++ List.replicate level (Op.Push 0),
            List.replicate level (Operand.const (.i1 false)) ++ t.2)
        else
          .error .assertFail
      else
        .ok (List.replicate level (Op.Push 0),
          List.replicate level (Operand.const (.i1 false)) ++ stack)
    else
      .error .assertFail
  | _ => .error .assertFail

/-- The repeat-visit `Instruction::Br` arm of `MasmEmitter::emit_inst`: the
emitting block must be a loop header and a controlling block must be set;
after dropping unused operands and preparing the destination's block
arguments, emit `push(1)` to continue the target loop and one `push(0)` per
loop level between the controlling block and the emitting (target header)
block. -/
def emit_br_repeat (is_loop_header : Bool) (controlling : Option Nat)
    (emitting : Nat) (loop_level : Nat → Nat) (live_at_dest : Value → Bool)
    (live_after_inst : Value → Bool) (dest_args : List Value)
    (stack : OperandStack) : Except Panic (List Op × OperandStack) :=
  if ¬is_loop_header then .error .assertFail
  else
    let d := drop_unused_operands_at dest_args live_at_dest stack
    match prepare_stack_arguments live_after_inst dest_args d.1 with
    | .error e => .error e
    | .ok p =>
      match controlling with
      | none => .error .assertFail
      | some c =>
        let current_level := loop_level c
        let target_level := loop_level emitting
        .ok (d.2 ++ p.1 ++ Op.Push 1 :: List.replicate (current_level - target_level) (Op.Push 0),
          List.replicate (current_level - target_level) (Operand.const (.i1 false)) ++
            Operand.const (.i1 true) :: p.2)

/-- Modelled from the spec: the global-value data chain (section 4.4). Each
layer carries the relative offset it contributes; a `load` layer also carries
the size of the loaded type in field elements. -/
inductive GlobalValueData where
  | symbol (name : Nat) (offset : Int)
  | iaddImm (base : Nat) (offset : Int)
  | load (base : Nat) (offset : Int) (sizeInFelts : Nat)
  deriving DecidableEq, Repr

/-- The relative offset contributed by one global-value layer. -/
def GlobalValueData.offset : GlobalValueData → Int
  | .symbol _ o => o
  | .iaddImm _ o => o
  | .load _ o _ => o

/-- Modelled from the spec: the linker-provided global environment (section 6):
the next available segment offset, the global table lookup (name to base
offset, combining `globals.find` and `globals.offset_of`), and the data chain
of each global value. -/
structure GlobalEnv where
  nextAvailableOffset : Nat
  findGlobal : Nat → Option Nat
  gvData : Nat → GlobalValueData

/-- `MasmEmitter::calculate_global_value_addr`: walk the chain of
address-arithmetic layers accumulating the relative offset; a symbol layer
resolves against the global table and yields
`segment_table_base + symbol_base + relative_offset` as a wrapping `u32`.
The fuel bounds the source's unbounded chain walk. -/
def calculate_global_value_addr (env : GlobalEnv) :
    Nat → Int → Nat → Except Panic Nat
  | 0, _, _ => .error .assertFail
  | fuel + 1, relative_offset, gv =>
    let gv_data := env.gvData gv
    let relative_offset := relative_offset + gv_data.offset
    match gv_data with
    | .symbol name _ =>
      match env.findGlobal name with
      | none => .error .assertFail
      | some base_offset =>
        .ok ((((env.nextAvailableOffset : Int) + base_offset + relative_offset).emod (2 ^ 32)).toNat)
    | .iaddImm base _ => calculate_global_value_addr env fuel relative_offset base
    | .load base _ _ => calculate_global_value_addr env fuel relative_offset base

/-- The instructions of the SSA IR, with only the payloads the pass inspects. -/
inductive Instruction where
  | globalValue (global : Nat)
  | unaryOpImm (imm : Immediate)
  | unaryOp
  | binaryOpImm (imm : Immediate)
  | binaryOp
  | test
  | load
  | primOp
  | primOpImm (imm : Immediate)
  | call
  | memCpy
  | inlineAsm
  | retImm (arg : Immediate)
  | ret (args : List Value)
  | br (destination : Nat) (args : List Value)
  | condBr (then_dest : Nat) (then_args : List Value) (else_dest : Nat) (else_args : List Value)
  | switch
  deriving DecidableEq, Repr

/-- Whether an instruction's opcode is a terminator. -/
def Instruction.isTerminator : Instruction → Bool
  | .retImm _ | .ret _ | .br _ _ | .condBr _ _ _ _ | .switch => true
  | _ => false

/-- The opcode families dispatched on by `MasmEmitter::emit_op`. -/
inductive OpcodeFamily where
  | globalValue
  | unaryOpImm
  | unaryOp
  | binaryOpImm
  | binaryOp
  | test
  | load
  | primOp
  | primOpImm
  | call
  | memCpy
  | inlineAsm
  | terminator
  deriving DecidableEq, Repr

/-- The opcode family of an instruction. -/
def Instruction.family : Instruction → OpcodeFamily
  | .globalValue _ => .globalValue
  | .unaryOpImm _ => .unaryOpImm
  | .unaryOp => .unaryOp
  | .binaryOpImm _ => .binaryOpImm
  | .binaryOp => .binaryOp
  | .test => .test
  | .load => .load
  | .primOp => .primOp
  | .primOpImm _ => .primOpImm
  | .call => .call
  | .memCpy => .memCpy
  | .inlineAsm => .inlineAsm
  | .retImm _ | .ret _ | .br _ _ | .condBr _ _ _ _ | .switch => .terminator

/-- `MasmEmitter::emit_global_value`: resolve the address of the global; a
`load` layer of one field element emits a memory load (larger loads are
`todo!`), a bare symbol or address-arithmetic layer emits a `push` of the
address; the first instruction result is pushed on the simulated stack. -/
def emit_global_value (env : GlobalEnv) (inst_results : Nat → List Value)
    (inst : Nat) (global : Nat) (stack : OperandStack) :
    Except Panic (List Op × OperandStack) :=
  match inst_results inst with
  | [] => .error .assertFail
  | result :: _ =>
    match calculate_global_value_addr env (2 ^ 16) 0 global with
    | .error e => .error e
    | .ok addr =>
      match env.gvData global with
      | .load _ _ sizeInFelts =>
        if sizeInFelts = 1 then
          .ok ([.MemLoadImm addr], Operand.value result :: stack)
        else
          .error .todo
      | .symbol _ _ | .iaddImm _ _ =>
        .ok ([.PushU32 addr], Operand.value result :: stack)

/-- The family handlers invoked by `MasmEmitter::emit_op`; every family except
global values is `todo!()` in the source. -/
def lower_by_family (env : GlobalEnv) (inst_results : Nat → List Value)
    (inst : Nat) (ix : Instruction) (stack : OperandStack) :
    Except Panic (List Op × OperandStack) :=
  match ix.family with
  | .globalValue =>
    match ix with
    | .globalValue g => emit_global_value env inst_results inst g stack
    | _ => .error .unreachableCode
  | .unaryOpImm | .unaryOp | .binaryOpImm | .binaryOp | .test | .load
  | .primOp | .primOpImm | .call | .memCpy | .inlineAsm => .error .todo
  | .terminator => .error .unreachableCode

/-- `MasmEmitter::emit_op`: assert the instruction is not a terminator,
dispatch on its opcode constructor, then push the instruction results onto
the simulated stack in reverse iteration order (result 0 ends up on top). -/
def emit_op (env : GlobalEnv) (inst_results : Nat → List Value) (inst : Nat)
    (ix : Instruction) (stack : OperandStack) :
    Except Panic (List Op × OperandStack) :=
  if ix.isTerminator then .error .assertFail
  else
    let lowered :=
      match ix with
      | .globalValue g => emit_global_value env inst_results inst g stack
      | .unaryOpImm _ => .error .todo
      | .unaryOp => .error .todo
      | .binaryOpImm _ => .error .todo
      | .binaryOp => .error .todo
      | .test => .error .todo
      | .load => .error .todo
      | .primOp => .error .todo
      | .primOpImm _ => .error .todo
      | .call => .error .todo
      | .memCpy => .error .todo
      | .inlineAsm => .error .todo
      | .retImm _ | .ret _ | .br _ _ | .condBr _ _ _ _ | .switch => .error .unreachableCode
    match lowered with
    | .error e => .error e
    | .ok r =>
      .ok (r.1, (inst_results inst).reverse.foldl (fun s v => Operand.value v :: s) r.2)

/-- A dependency graph node: an instruction of the block with its 1-based
program index, or a value entering the block on the operand stack. -/
inductive Node where
  | inst (id : Nat) (program_index : Nat)
  | stack (v : Value)
  deriving DecidableEq, Repr

/-- Modelled from the spec: a dependency-graph edge runs from dependent to
dependency and carries the list of `(value, count)` pairs it uses
(section 3); multiple edges between the same pair are merged. -/
structure Dependency where
  dependent : Node
  dependency : Node
  used : List (Value × Nat)
  deriving DecidableEq, Repr

/-- Modelled from the spec: the per-block dependency graph, with nodes kept in
insertion order and edges merged per (dependent, dependency) pair
(section 3). -/
structure DependencyGraph where
  nodes : List Node
  edges : List Dependency
  deriving DecidableEq, Repr

/-- Add a node; each node is represented exactly once. -/
def DependencyGraph.add_node (n : Node) (g : DependencyGraph) : DependencyGraph :=
  if g.nodes.contains n then g else { g with nodes := g.nodes ++ [n] }

/-- Append one use of `v` to the merged edge from `a` to `b`, creating the
edge if needed (the creation path with an immediate `add_use`). -/
def DependencyGraph.add_dependency_use (a b : Node) (v : Value) (g : DependencyGraph) :
    DependencyGraph :=
  if g.edges.any fun e => e.dependent = a ∧ e.dependency = b then
    { g with
      edges := g.edges.map fun e =>
        if e.dependent = a ∧ e.dependency = b then
          if e.used.any fun u => u.1 = v then
            { e with used := e.used.map fun u => if u.1 = v then (u.1, u.2 + 1) else u }
          else
            { e with used := e.used ++ [(v, 1)] }
        else e }
  else
    { g with edges := g.edges ++ [⟨a, b, [(v, 1)]⟩] }

/-- Add a merged edge from `a` to `b` without recording a use (the path taken
for `Stack` dependencies). -/
def DependencyGraph.add_dependency (a b : Node) (g : DependencyGraph) : DependencyGraph :=
  if g.edges.any fun e => e.dependent = a ∧ e.dependency = b then g
  else { g with edges := g.edges ++ [⟨a, b, []⟩] }

/-- The number of dependents of a node (incoming merged edges). -/
def DependencyGraph.num_predecessors (n : Node) (g : DependencyGraph) : Nat :=
  (g.edges.filter fun e => e.dependency = n).length

/-- The outgoing merged edges of a node (its dependencies). -/
def DependencyGraph.successors (n : Node) (g : DependencyGraph) : List Dependency :=
  g.edges.filter fun e => e.dependent = n

/-- Remove a node together with its incident edges. -/
def DependencyGraph.remove_node (n : Node) (g : DependencyGraph) : DependencyGraph :=
  { nodes := g.nodes.erase n,
    edges := g.edges.filter fun e => ¬(e.dependent = n ∨ e.dependency = n) }

/-- The SSA function data consulted by `build_dependency_graph`, restricted to
one block: the block's instructions in program order, per-instruction
arguments, flattened branch arguments, results, the defining instruction of
each value (`none` for block parameters), and the side-effect flag. -/
structure FunctionModel where
  insts : List Nat
  inst_args : Nat → List Value
  branch_args : Nat → List Value
  inst_results : Nat → List Value
  value_inst : Value → Option Nat
  has_side_effects : Nat → Bool

/-- `add_data_dependency`: a value defined by an instruction of the same block
points at that instruction's node (recording the use); any other value points
at an on-demand `Stack` node. -/
def add_data_dependency (f : FunctionModel) (node : Node) (value : Value)
    (g : DependencyGraph) : DependencyGraph :=
  match f.value_inst value with
  | some dep_inst =>
    if f.insts.contains dep_inst then
      let dep_index := (f.insts.indexOf dep_inst) + 1
      let dep_node := Node.inst dep_inst dep_index
      let g := g.add_node dep_node
      g.add_dependency_use node dep_node value
    else
      let dep_node := Node.stack value
      let g := g.add_node dep_node
      g.add_dependency node dep_node
  | none =>
    let dep_node := Node.stack value
    let g := g.add_node dep_node
    g.add_dependency node dep_node

/-- The build phase of `build_dependency_graph`: one `Inst` node per
instruction in program order, plus a dependency edge for every value read by
the instruction's arguments and branch-argument lists. -/
def build_graph_nodes (f : FunctionModel) : DependencyGraph :=
  (f.insts.enum.foldl (fun g p =>
    let node := Node.inst p.2 (p.1 + 1)
    let g := g.add_node node
    let g := (f.inst_args p.2).foldl (fun g arg => add_data_dependency f node arg g) g
    (f.branch_args p.2).foldl (fun g arg => add_data_dependency f node arg g) g)
    ⟨[], []⟩)

/-- The DCE seeding scan of `build_dependency_graph`: every `Inst` node with
no dependents in the graph and no result live after the instruction enters
the worklist. -/
def dce_seed (f : FunctionModel) (live_after : Value → Nat → Bool)
    (g : DependencyGraph) : List (Nat × Nat) :=
  g.nodes.foldl (fun wl n =>
    match n with
    | .inst id idx =>
      if g.num_predecessors n > 0 then wl
      else if (f.inst_results id).any fun v => live_after v id then wl
      else wl ++ [(id, idx)]
    | .stack _ => wl) []

/-- The DCE worklist drain of `build_dependency_graph`: a side-effect-free
instruction is removed; before removal, each of its instruction dependencies
for which it is the sole remaining dependent is enqueued (no liveness check
is made on that path). -/
def dce_drain (f : FunctionModel) :
    Nat → List (Nat × Nat) → DependencyGraph → DependencyGraph
  | 0, _, g => g
  | _ + 1, [], g => g
  | fuel + 1, (id, idx) :: rest, g =>
    if f.has_side_effects id then dce_drain f fuel rest g
    else
      let node := Node.inst id idx
      let enqueued := (g.successors node).filterMap fun e =>
        match e.dependency with
        | .inst id2 idx2 =>
          if g.num_predecessors e.dependency = 1 then some (id2, idx2) else none
        | .stack _ => none
      dce_drain f fuel (rest ++ enqueued) (g.remove_node node)

/-- `build_dependency_graph`: the build phase followed by dead-code
elimination. -/
def build_dependency_graph (f : FunctionModel) (live_after : Value → Nat → Bool) :
    DependencyGraph :=
  let g := build_graph_nodes f
  let worklist := dce_seed f live_after g
  dce_drain f (g.nodes.length + worklist.length + 1) worklist g

/-- The per-block state of `MasmEmitter::emit` that governs caching and visit
tracking: the memoized triples of loop-header blocks (the triple abstracted
as the value of a computation function), the visited set, a log of triple
computations, and a log of the triple served on each visit. -/
structure EmitVisitState where
  cache : List (Nat × Nat)
  visited : List Nat
  computeLog : List Nat
  serveLog : List (Nat × Nat)
  deriving DecidableEq, Repr

/-- Association lookup in the header cache (first binding wins). -/
def cache_lookup : List (Nat × Nat) → Nat → Option Nat
  | [], _ => none
  | (k, v) :: rest, b => if b = k then some v else cache_lookup rest b

/-- One block visit of `MasmEmitter::emit` (lines 419-464 of the source):
record first-visit status, then for a loop header take the cached triple or
compute and cache it, and for a normal block abort on a repeat visit
(`unexpected cycle`) and otherwise compute the triple fresh without caching. -/
def emit_visit_block (is_loop_header : Nat → Bool) (compute : Nat → Nat)
    (b : Nat) (st : EmitVisitState) : Option EmitVisitState :=
  let is_first_visit := b ∉ st.visited
  let visited := if is_first_visit then b :: st.visited else st.visited
  if is_loop_header b then
    match cache_lookup st.cache b with
    | some t =>
      some { st with visited := visited, serveLog := st.serveLog ++ [(b, t)] }
    | none =>
      let t := compute b
      some { st with
        cache := (b, t) :: st.cache
        visited := visited
        computeLog := st.computeLog ++ [b]
        serveLog := st.serveLog ++ [(b, t)] }
  else
    if is_first_visit then
      some { st with
        visited := visited
        computeLog := st.computeLog ++ [b]
        serveLog := st.serveLog ++ [(b, compute b)] }
    else
      none

/-- A sequence of block visits of one function lowering, threaded through
`emit_visit_block`; `none` models the `unexpected cycle` abort. -/
def emit_visit_run (is_loop_header : Nat → Bool) (compute : Nat → Nat) :
    List Nat → EmitVisitState → Option EmitVisitState
  | [], st => some st
  | b :: bs, st =>
    match emit_visit_block is_loop_header compute b st with
    | none => none
    | some st2 => emit_visit_run is_loop_header compute bs st2

/-- The block-traversal fields of `MasmEmitter` whose save/restore discipline
`MasmEmitter::emit` maintains; `emitting = none` models the reserved value the
emitter starts from, and `out` logs the blocks lowered. -/
structure EmitterState where
  controlling : Option Nat
  emitting : Option Nat
  current_block : Nat
  out : List Nat
  deriving DecidableEq, Repr

mutual

/-- The recursive frame discipline of `MasmEmitter::emit`: save the current,
emitting and controlling blocks, update them for `b`, lower the block (the
schedule emission is abstracted to recursion into the terminator's successor
blocks given by `cfg`), and restore the three fields before returning.
`emit_frame` processes one block; `emit_frames` its successor list. -/
def emit_frame (cfg : Nat → List Nat) :
    Nat → Nat → Nat → EmitterState → Option EmitterState
  | 0, _, _, _ => none
  | fuel + 1, b, b_prime, st =>
    let prev_block := st.current_block
    let emitting := st.emitting
    let controlling := match emitting with
      | none => none
      | some _ => st.controlling
    let st1 : EmitterState :=
      { st with
        current_block := b_prime
        emitting := some b
        controlling := match emitting with
          | none => st.controlling
          | some e => some e
        out := st.out ++ [b] }
    match emit_frames cfg fuel (cfg b) st1 with
    | none => none
    | some st2 =>
      some { st2 with
        controlling := controlling
        emitting := emitting
        current_block := prev_block }

/-- Recursive emission of a list of successor blocks with the parent frame's
state. -/
def emit_frames (cfg : Nat → List Nat) :
    Nat → List Nat → EmitterState → Option EmitterState
  | _, [], st => some st
  | fuel, s :: rest, st =>
    match emit_frame cfg fuel s s st with
    | none => none
    | some st2 => emit_frames cfg fuel rest st2

end

/-- `Stackify::run`: require the analyses, then emit from the entry block into
the pre-created body block of the output function; the result is either a
stack-machine function state or an error value. -/
def stackify_run (analyses_available : Bool) (cfg : Nat → List Nat)
    (entry : Nat) (fuel : Nat) : Except Panic EmitterState :=
  if ¬analyses_available then .error .prerequisiteViolation
  else
    match emit_frame cfg fuel entry 0 ⟨none, none, 4294967295, []⟩ with
    | none => .error .assertFail
    | some st => .ok st

/-- The ops that the move primitive emits, as worded by the amended claim:
nothing when `n = m`; `swap(1)` when `{n, m} = {0, 1}` and the consumer is
non-commutative (nothing when commutative); `move-up(n)` when `m = 0`;
`move-up(n)` then `swap(1)` when `m = 1` regardless of commutativity;
`move-up(n)` then `move-down(m)` otherwise. -/
def move_spec_ops (n m : Nat) (is_commutative_binary_operand : Bool) : List Op :=
  if n = m then []
  else if (n = 1 ∧ m = 0) ∨ (n = 0 ∧ m = 1) then
    if is_commutative_binary_operand then [] else [.Swap 1]
  else if m = 0 then [.Movup n]
  else if m = 1 then [.Movup n, .Swap 1]
  else [.Movup n, .Movdn m]

/-- Whether an immediate is a signed integer or floating point, the two
categories the pass rejects. -/
def Immediate.is_signed_or_float : Immediate → Bool
  | .i8 _ | .i16 _ | .i32 _ | .i64 _ | .i128 _ | .f64 _ => true
  | _ => false

/-- Modelled from the spec: the stack effect of the push ops (section 6);
`push2([lo, hi])` pushes the array left to right, so the high half lands on
top. -/
def op_push_effect : Op → OperandStack → OperandStack
  | .Push f, s => Operand.const (.felt f) :: s
  | .PushU8 i, s => Operand.const (.u8 i) :: s
  | .PushU32 i, s => Operand.const (.u32 i) :: s
  | .Push2 lo hi, s => Operand.const (.u32 hi) :: Operand.const (.u32 lo) :: s
  | _, s => s

/-- A two-instruction straight-line example for the dead-code-elimination
phase: instruction 1 defines value 0 (pure, used by instruction 2 and live
after the block in a dominated successor), instruction 2 defines value 1
(pure, dead), instruction 3 is the side-effecting terminator. -/
def dce_example_function : FunctionModel where
  insts := [1, 2, 3]
  inst_args := fun i => if i = 2 then [0] else []
  branch_args := fun _ => []
  inst_results := fun i => if i = 1 then [0] else if i = 2 then [1] else []
  value_inst := fun v => if v = 0 then some 1 else if v = 1 then some 2 else none
  has_side_effects := fun i => i = 3

/-- Liveness for the DCE example: value 0 is live after every program point
of the block (it is consumed by a dominated successor block); value 1 is
dead. -/
def dce_example_live_after : Value → Nat → Bool := fun v _ => v = 0

/-- A stack of five distinct dead values, the failing input for the
drop-fusion bug. -/
def five_dead_stack : OperandStack :=
  [.value 0, .value 1, .value 2, .value 3, .value 4]

/-- A stack of four distinct dead values. -/
def four_dead_stack : OperandStack :=
  [.value 0, .value 1, .value 2, .value 3]

/-- The linker environment of the global-value witness: segment table base 8,
one symbol (name 0) at base offset 4, and every global value a bare symbol
layer of that name. -/
def gv_example_env : GlobalEnv where
  nextAvailableOffset := 8
  findGlobal := fun n => if n = 0 then some 4 else none
  gvData := fun _ => .symbol 0 0

/-- Instruction results for the global-value witness: every instruction
produces the single value 7. -/
def gv_example_results : Nat → List Value := fun _ => [7]

/-- The invariant maintained by `emit_visit_block` over the caching state:
cache entries belong to loop headers and hold the computed triple; a header's
triple has been computed exactly once when cached and never otherwise; every
served triple is the computed one; a non-header's triple has been computed
exactly once when the block was visited. -/
def VisitInv (ih : Nat → Bool) (cp : Nat → Nat) (st : EmitVisitState) : Prop :=
  (∀ b t, (b, t) ∈ st.cache → ih b = true ∧ t = cp b) ∧
  (∀ b, ih b = true →
    st.computeLog.count b = (if (cache_lookup st.cache b).isSome then 1 else 0)) ∧
  (∀ b t, (b, t) ∈ st.serveLog → t = cp b) ∧
  (∀ b, ih b = false →
    st.computeLog.count b = (if b ∈ st.visited then 1 else 0))

/-- Claim C2: the dead-code-elimination worklist cascade removes instruction 1
even though its result (value 0) is live after the block: the cascade
(lines 1928-1946 of the source) checks only that the removed dependent was
the sole in-graph predecessor and never consults liveness, contradicting the
claim that every removed instruction has no result live after the block.
Instruction 1 is pure, its node is present after the build phase, and it is
gone from the final graph. -/
theorem dce_removes_instruction_with_live_result :
    build_dependency_graph dce_example_function dce_example_live_after =
      ⟨[Node.inst 3 3], []⟩ ∧
    Node.inst 1 1 ∈ (build_graph_nodes dce_example_function).nodes ∧
    Node.inst 1 1 ∉ (build_dependency_graph dce_example_function dce_example_live_after).nodes ∧
    dce_example_function.has_side_effects 1 = false ∧
    dce_example_function.inst_results 1 = [0] ∧
    dce_example_live_after 0 1 = true := by
  refine ⟨by decide, by decide, by decide, by decide, by decide, by decide⟩

/-- Claim C3: the drop-fusion buffer of `drop_unused_operands_at` is wrong in
both directions. On a stack of five dead operands the collection phase
computes five drops, but the emitted sequence is a single `drop-word`
(four slots), losing the fifth drop; and a run of exactly four computed drops
is emitted as four individual drops, never fused into a `drop-word`. -/
theorem drop_fusion_loses_fifth_drop :
    (drop_unused_collect [] (fun _ => false) 11 0 [] five_dead_stack []).2 =
      List.replicate 5 Op.Drop ∧
    drop_unused_operands_at [] (fun _ => false) five_dead_stack = ([], [Op.Dropw]) ∧
    ops_drop_count (List.replicate 5 Op.Drop) = 5 ∧
    ops_drop_count [Op.Dropw] = 4 ∧
    drop_unused_operands_at [] (fun _ => false) four_dead_stack =
      ([], List.replicate 4 Op.Drop) ∧
    List.replicate 4 Op.Drop ≠ [Op.Dropw] := by
  refine ⟨by decide, by decide, by decide, by decide, by decide, by decide⟩

/-- Claim C4, counterexample: moving the operand at position 2 to position 1
for a commutative consumer emits `move-up(2); swap(1)` — the source's
`(actual, 1)` arm never consults the commutativity flag — whereas the claim
says the swap is skipped for a commutative binary consumer. -/
theorem move_swap_not_skipped_when_commutative :
    (move_operand_to_position 2 1 true [Operand.value 0, Operand.value 1, Operand.value 2]).1 =
      [Op.Movup 2, Op.Swap 1] ∧
    (move_operand_to_position 2 1 true [Operand.value 0, Operand.value 1, Operand.value 2]).1 ≠
      [Op.Movup 2] := by
  refine ⟨by decide, by decide⟩

/-- Claim C4, amended: the move primitive emits nothing when `n = m`; a single
`swap(1)` when `{n, m} = {0, 1}` and the consumer is non-commutative (nothing
when commutative); `move-up(n)` when `m = 0`; `move-up(n)` then `swap(1)` when
`m = 1` regardless of the consumer's commutativity; and `move-up(n)` then
`move-down(m)` otherwise. -/
theorem move_operand_to_position_cases (n m : Nat)
    (is_commutative_binary_operand : Bool) (stack : OperandStack) :
    (move_operand_to_position n m is_commutative_binary_operand stack).1 =
      move_spec_ops n m is_commutative_binary_operand := by
  unfold move_operand_to_position move_spec_ops
  split_ifs <;> rfl

/-- Claim C7, counterexample: a `u8` immediate is lowered to a push of a `u8`,
not a push of a `u32` as the claim states. -/
theorem immediate_u8_pushes_u8_not_u32 :
    immediate_to_push_op (.u8 5) = .ok (.PushU8 5) ∧
    immediate_to_push_op (.u8 5) ≠ .ok (.PushU32 5) := by
  refine ⟨rfl, fun h => by simp [immediate_to_push_op] at h⟩

/-- Claim C7, amended: booleans and `u8` immediates are lowered to a push of a
`u8`; `u16` and `u32` to a push of a `u32`; a `u64` to `push2` of
`[low 32 bits, high 32 bits]`, whose execution leaves the high half on top of
the stack; a native field element to a push of the felt. -/
theorem immediate_to_push_op_cases :
    (∀ b, immediate_to_push_op (.i1 b) = .ok (.PushU8 (if b then 1 else 0))) ∧
    (∀ i, immediate_to_push_op (.u8 i) = .ok (.PushU8 i)) ∧
    (∀ i, immediate_to_push_op (.u16 i) = .ok (.PushU32 i)) ∧
    (∀ i, immediate_to_push_op (.u32 i) = .ok (.PushU32 i)) ∧
    (∀ i, immediate_to_push_op (.u64 i) = .ok (.Push2 (i % 2 ^ 32) (i / 2 ^ 32))) ∧
    (∀ i s, (op_push_effect (.Push2 (i % 2 ^ 32) (i / 2 ^ 32)) s).head? =
      some (Operand.const (.u32 (i / 2 ^ 32)))) ∧
    (∀ i, immediate_to_push_op (.felt i) = .ok (.Push i)) := by
  refine ⟨fun _ => rfl, fun _ => rfl, fun _ => rfl, fun _ => rfl, fun _ => rfl,
    fun _ _ => rfl, fun _ => rfl⟩

/-- Pushing a list of values in reverse iteration order prepends the list to
the stack, so the first element ends up on top. -/
theorem foldr_push_eq_map_append (l : List Value) (s : OperandStack) :
    List.foldr (fun v s => Operand.value v :: s) s l = l.map Operand.value ++ s := by
  induction l with
  | nil => rfl
  | cons a l ih => simp [ih]

/-- Claim C1, counterexample: a unary-with-immediate instruction reaches the
dispatcher but its family handler is `todo!()`, so the pass aborts instead of
lowering the instruction by a fixed mapping and pushing its results: no
output is produced for it. -/
theorem emit_op_unary_imm_aborts :
    emit_op gv_example_env gv_example_results 0 (.unaryOpImm (.u32 1)) [] =
      .error .todo ∧
    (emit_op gv_example_env gv_example_results 0 (.unaryOpImm (.u32 1)) []).toOption =
      none :=
  ⟨rfl, rfl⟩

/-- Claim C1, amended: for every non-terminator instruction the emitter
dispatches on its opcode family exactly as the family table
`lower_by_family` does (only the global-value family currently completes;
all other family handlers abort as not yet implemented), and whenever the
dispatched handler returns, the instruction's results are pushed onto the
simulated operand stack in last-in/first-out order, so result 0 ends up on
top of the stack produced by the handler. -/
theorem emit_op_dispatches_by_family_and_pushes_results_lifo
    (env : GlobalEnv) (inst_results : Nat → List Value) (inst : Nat)
    (ix : Instruction) (stack : OperandStack)
    (hterm : ix.isTerminator = false) :
    (emit_op env inst_results inst ix stack =
      match lower_by_family env inst_results inst ix stack with
      | .error e => .error e
      | .ok r => .ok (r.1, (inst_results inst).map Operand.value ++ r.2)) ∧
    (∀ ops stack2, emit_op env inst_results inst ix stack = .ok (ops, stack2) →
      ∃ mid, lower_by_family env inst_results inst ix stack = .ok (ops, mid) ∧
        stack2 = (inst_results inst).map Operand.value ++ mid) := by
  have hmain : emit_op env inst_results inst ix stack =
      match lower_by_family env inst_results inst ix stack with
      | .error e => .error e
      | .ok r => .ok (r.1, (inst_results inst).map Operand.value ++ r.2) := by
    cases ix with
    | globalValue g =>
      cases hE : emit_global_value env inst_results inst g stack with
      | error e =>
        simp [emit_op, lower_by_family, Instruction.family, Instruction.isTerminator, hE]
      | ok r =>
        simp [emit_op, lower_by_family, Instruction.family, Instruction.isTerminator, hE,
          foldr_push_eq_map_append]
    | unaryOpImm i => rfl
    | unaryOp => rfl
    | binaryOpImm i => rfl
    | binaryOp => rfl
    | test => rfl
    | load => rfl
    | primOp => rfl
    | primOpImm i => rfl
    | call => rfl
    | memCpy => rfl
    | inlineAsm => rfl
    | retImm a => simp [Instruction.isTerminator] at hterm
    | ret a => simp [Instruction.isTerminator] at hterm
    | br a b => simp [Instruction.isTerminator] at hterm
    | condBr a b c d => simp [Instruction.isTerminator] at hterm
    | switch => simp [Instruction.isTerminator] at hterm
  refine ⟨hmain, fun ops stack2 h => ?_⟩
  rw [hmain] at h
  cases hE : lower_by_family env inst_results inst ix stack with
  | error e => rw [hE] at h; cases h
  | ok r =>
    rw [hE] at h
    cases h
    exact ⟨r.2, rfl, rfl⟩

/-- Witness for claim C1: a global-value instruction with result value 7 is
dispatched to the global-value handler, which pushes address 12; the result
is then pushed LIFO on top of the handler's stack. -/
theorem emit_op_global_value_witness :
    Instruction.isTerminator (.globalValue 0) = false ∧
    emit_op gv_example_env gv_example_results 0 (.globalValue 0) [] =
      (match lower_by_family gv_example_env gv_example_results 0 (.globalValue 0) [] with
       | .error e => .error e
       | .ok r => .ok (r.1, (gv_example_results 0).map Operand.value ++ r.2)) ∧
    emit_op gv_example_env gv_example_results 0 (.globalValue 0) [] =
      .ok ([Op.PushU32 12], [Operand.value 7, Operand.value 7]) :=
  ⟨rfl,
    (emit_op_dispatches_by_family_and_pushes_results_lifo gv_example_env
      gv_example_results 0 (.globalValue 0) [] rfl).1,
    rfl⟩

/-- Truncating the simulated stack to its top zero operands empties it. -/
theorem truncate_stack_zero (s : OperandStack) : (truncate_stack 0 s).2 = [] := by
  unfold truncate_stack
  simp only [Nat.sub_zero]
  split
  · simp [OperandStack.dropn]
  · next h =>
    have hl : s.length = 0 := by omega
    simp [List.eq_nil_of_length_eq_zero hl]

/-- Swapping the top operand to the bottom and truncating to size 1 leaves
exactly the original top operand. -/
theorem swap_last_truncate (s : OperandStack) (a : Operand)
    (hhead : s.head? = some a) (h2 : 2 ≤ s.length) :
    (truncate_stack 1 (OperandStack.swap (s.length - 1) s)).2 = [a] := by
  have h0 : 0 < s.length := by omega
  have hl : s.length - 1 < s.length := by omega
  have hget0 : s.get? 0 = some a := by
    cases s with
    | nil => simp at hhead
    | cons x t => simpa using hhead
  have hb : s.get? (s.length - 1) = some (s[s.length - 1]) := by
    rw [List.get?_eq_getElem?]
    simp [List.getElem?_eq_getElem hl]
  have hswap : OperandStack.swap (s.length - 1) s =
      (s.set 0 (s[s.length - 1])).set (s.length - 1) a := by
    unfold OperandStack.swap
    rw [hget0, hb]
  rw [hswap]
  have hlen1 : ((s.set 0 (s[s.length - 1])).set (s.length - 1) a).length = s.length := by
    simp
  unfold truncate_stack
  rw [if_pos (by omega)]
  simp only [OperandStack.dropn, hlen1]
  have hidx : s.length - 1 < ((s.set 0 (s[s.length - 1])).set (s.length - 1) a).length := by
    omega
  rw [List.drop_eq_getElem_cons hidx]
  have hdropnil :
      ((s.set 0 (s[s.length - 1])).set (s.length - 1) a).drop (s.length - 1 + 1) = [] := by
    exact List.drop_eq_nil_of_le (by omega)
  rw [hdropnil]
  rw [List.getElem_set_self hidx]

/-- Claim C5: both return forms leave only the return value on the simulated
operand stack and push exactly `L` zero constants on top of it, where `L` is
the controlling loop level; the immediate form first truncates the stack to
empty and pushes the immediate, and the value form (when anything besides the
return value is on the stack) swaps the return value to the bottom and
truncates the stack to size 1. -/
theorem return_lowering_leaves_value_and_loop_zeroes
    (controlling : Option Nat) (emitting : Nat) (loop_level : Nat → Nat)
    (arg : Immediate) (v : Value) (stack : OperandStack)
    (ops : List Op) (stack2 : OperandStack) :
    (emit_ret_imm controlling emitting loop_level arg stack = .ok (ops, stack2) →
      stack2 = List.replicate (controlling_loop_level controlling emitting loop_level)
          (Operand.const (.i1 false)) ++ [Operand.const arg] ∧
      ∃ p, immediate_to_push_op arg = .ok p ∧
        ops = (truncate_stack 0 stack).1 ++ [p] ++
          List.replicate (controlling_loop_level controlling emitting loop_level) (Op.Push 0)) ∧
    (emit_ret controlling emitting loop_level [v] stack = .ok (ops, stack2) →
      stack2 = List.replicate (controlling_loop_level controlling emitting loop_level)
          (Operand.const (.i1 false)) ++ [Operand.value v] ∧
      (1 < stack.length →
        ops = Op.Swap (stack.length - 1) ::
          (truncate_stack 1 (OperandStack.swap (stack.length - 1) stack)).1 ++
          List.replicate (controlling_loop_level controlling emitting loop_level) (Op.Push 0))) := by
  constructor
  · intro h
    unfold emit_ret_imm at h
    cases hp : immediate_to_push_op arg with
    | error e => rw [hp] at h; cases h
    | ok p =>
      rw [hp] at h
      cases h
      refine ⟨?_, p, rfl, rfl⟩
      rw [truncate_stack_zero]
  · intro h
    simp only [emit_ret] at h
    split at h
    · split at h
      · split at h
        · cases h
          have hhead : stack.head? = some (Operand.value v) := by assumption
          refine ⟨?_, fun _ => rfl⟩
          rw [swap_last_truncate stack (Operand.value v) hhead (by omega)]
        · cases h
      · cases h
        next hle =>
        have hhead : stack.head? = some (Operand.value v) := by assumption
        have hstack : stack = [Operand.value v] := by
          cases stack with
          | nil => cases hhead
          | cons x t =>
            have hx : x = Operand.value v := by simpa using hhead
            cases t with
            | nil => rw [hx]
            | cons y u => exact absurd (by simp) hle
        refine ⟨by rw [hstack], fun hc => absurd hc hle⟩
    · cases h

/-- Witness for claim C5: with loop level 1, the immediate form on a stack of
one dead value yields `drop; push(7); push(0)` leaving `[0, 7]` on the
simulated stack, and the value form on `[v5, v9]` yields
`swap(1); drop; push(0)` leaving `[0, v5]`. -/
theorem return_lowering_witness :
    emit_ret_imm none 0 (fun _ => 1) (.u32 7) [Operand.value 9] =
      .ok ([Op.Drop, Op.PushU32 7, Op.Push 0],
        [Operand.const (.i1 false), Operand.const (.u32 7)]) ∧
    ([Operand.const (.i1 false), Operand.const (.u32 7)] : OperandStack) =
      List.replicate (controlling_loop_level none 0 (fun _ => 1))
        (Operand.const (.i1 false)) ++ [Operand.const (.u32 7)] ∧
    emit_ret none 0 (fun _ => 1) [5] [Operand.value 5, Operand.value 9] =
      .ok ([Op.Swap 1, Op.Drop, Op.Push 0],
        [Operand.const (.i1 false), Operand.value 5]) ∧
    ([Operand.const (.i1 false), Operand.value 5] : OperandStack) =
      List.replicate (controlling_loop_level none 0 (fun _ => 1))
        (Operand.const (.i1 false)) ++ [Operand.value 5] :=
  ⟨rfl,
    ((return_lowering_leaves_value_and_loop_zeroes none 0 (fun _ => 1) (.u32 7) 5
      [Operand.value 9] [Op.Drop, Op.PushU32 7, Op.Push 0]
      [Operand.const (.i1 false), Operand.const (.u32 7)]).1 rfl).1,
    rfl,
    ((return_lowering_leaves_value_and_loop_zeroes none 0 (fun _ => 1) (.u32 7) 5
      [Operand.value 5, Operand.value 9] [Op.Swap 1, Op.Drop, Op.Push 0]
      [Operand.const (.i1 false), Operand.value 5]).2 rfl).1⟩

/-- Claim C6: on a repeat visit to a loop header, an unconditional branch
first drops unused operands and prepares the destination's block arguments,
then emits exactly one `push(1)` to continue the target loop followed by
exactly `loop_level(controlling) - loop_level(emitting)` `push(0)` ops; the
simulated stack receives the matching constants. -/
theorem br_repeat_visit_pushes_one_then_deltas
    (c emitting : Nat) (loop_level : Nat → Nat) (live_at_dest live_after : Value → Bool)
    (dest_args : List Value) (stack : OperandStack) (ops : List Op) (stack2 : OperandStack)
    (h : emit_br_repeat true (some c) emitting loop_level live_at_dest live_after
      dest_args stack = .ok (ops, stack2))
    (_hlevel : loop_level emitting ≤ loop_level c) :
    match prepare_stack_arguments live_after dest_args
        (drop_unused_operands_at dest_args live_at_dest stack).1 with
    | .error _ => False
    | .ok prep =>
      ops = (drop_unused_operands_at dest_args live_at_dest stack).2 ++ prep.1 ++
        Op.Push 1 :: List.replicate (loop_level c - loop_level emitting) (Op.Push 0) ∧
      stack2 = List.replicate (loop_level c - loop_level emitting)
        (Operand.const (.i1 false)) ++ Operand.const (.i1 true) :: prep.2 := by
  simp only [emit_br_repeat] at h
  cases hp : prepare_stack_arguments live_after dest_args
      (drop_unused_operands_at dest_args live_at_dest stack).1 with
  | error e =>
    rw [hp] at h
    simp at h
  | ok prep =>
    rw [hp] at h
    simp only [not_true_eq_false, if_false] at h
    cases h
    exact ⟨rfl, rfl⟩

/-- Witness for claim C6: a break from a controlling block at nesting depth 2
to a depth-0 target header (the spec's scenario 7) emits
`push(1); push(0); push(0)`. -/
theorem br_repeat_visit_witness :
    match prepare_stack_arguments (fun _ => false) []
        (drop_unused_operands_at [] (fun _ => false) ([] : OperandStack)).1 with
    | .error _ => False
    | .ok prep =>
      ([Op.Push 1, Op.Push 0, Op.Push 0] : List Op) =
        (drop_unused_operands_at [] (fun _ => false) ([] : OperandStack)).2 ++ prep.1 ++
          Op.Push 1 :: List.replicate (2 - 0) (Op.Push 0) ∧
      ([Operand.const (.i1 false), Operand.const (.i1 false), Operand.const (.i1 true)] :
          OperandStack) =
        List.replicate (2 - 0) (Operand.const (.i1 false)) ++
          Operand.const (.i1 true) :: prep.2 :=
  br_repeat_visit_pushes_one_then_deltas 1 0 (fun n => if n = 1 then 2 else 0)
    (fun _ => false) (fun _ => false) [] []
    [Op.Push 1, Op.Push 0, Op.Push 0]
    [Operand.const (.i1 false), Operand.const (.i1 false), Operand.const (.i1 true)]
    rfl (by decide)

/-- Claim C8: the pass yields exactly one of two results — an emitted function
state or an error value naming one of the panic categories — and every
signed-integer or floating-point immediate yields the distinct
not-yet-implemented signal (different from every other error category)
instead of producing a push op. -/
theorem stackify_result_dichotomy_and_unsupported_immediates
    (imm : Immediate) (analyses_available : Bool) (cfg : Nat → List Nat)
    (entry fuel : Nat) :
    ((∃ op, immediate_to_push_op imm = .ok op) ∨
      immediate_to_push_op imm = .error .notImplemented) ∧
    (immediate_to_push_op imm = .error .notImplemented ↔
      imm.is_signed_or_float = true) ∧
    (Panic.notImplemented ≠ .todo ∧ Panic.notImplemented ≠ .assertFail ∧
      Panic.notImplemented ≠ .unreachableCode ∧
      Panic.notImplemented ≠ .prerequisiteViolation) ∧
    ((∃ st, stackify_run analyses_available cfg entry fuel = .ok st) ∨
      (∃ e, stackify_run analyses_available cfg entry fuel = .error e)) := by
  refine ⟨?_, ?_, by refine ⟨by decide, by decide, by decide, by decide⟩, ?_⟩
  · cases imm <;> first | exact .inl ⟨_, rfl⟩ | exact .inr rfl
  · cases imm <;> simp [immediate_to_push_op, Immediate.is_signed_or_float]
  · cases hs : stackify_run analyses_available cfg entry fuel with
    | ok st => exact .inl ⟨st, rfl⟩
    | error e => exact .inr ⟨e, rfl⟩

/-- Claim C10: every call to the recursive emit routine that returns restores
the controlling-block, emitting-block and current-output-block fields to
exactly the values they held immediately before the call, however deep the
recursion into successor blocks went. (At every call site of the source,
`controlling` is `none` whenever `emitting` is still the reserved value,
which is the stated hypothesis.) -/
theorem emit_restores_emitter_fields
    (cfg : Nat → List Nat) (fuel b b_prime : Nat) (st st2 : EmitterState)
    (hinv : st.emitting = none → st.controlling = none)
    (h : emit_frame cfg fuel b b_prime st = some st2) :
    st2.controlling = st.controlling ∧ st2.emitting = st.emitting ∧
    st2.current_block = st.current_block := by
  cases fuel with
  | zero => simp [emit_frame] at h
  | succ fuel =>
    simp only [emit_frame] at h
    split at h
    · cases h
    · next st3 hm =>
      cases h
      refine ⟨?_, rfl, rfl⟩
      cases hemit : st.emitting with
      | none => simp [hemit, hinv hemit]
      | some e => simp [hemit]

/-- Witness for claim C10: a two-block emission returns with all three fields
restored to their initial values while the output log shows both blocks were
lowered. -/
theorem emit_restores_fields_witness :
    emit_frame (fun n => if n = 1 then [2] else []) 2 1 5 ⟨none, none, 0, []⟩ =
      some ⟨none, none, 0, [1, 2]⟩ ∧
    (⟨none, none, 0, [1, 2]⟩ : EmitterState).controlling =
      (⟨none, none, 0, []⟩ : EmitterState).controlling ∧
    (⟨none, none, 0, [1, 2]⟩ : EmitterState).emitting =
      (⟨none, none, 0, []⟩ : EmitterState).emitting ∧
    (⟨none, none, 0, [1, 2]⟩ : EmitterState).current_block =
      (⟨none, none, 0, []⟩ : EmitterState).current_block :=
  ⟨by simp [emit_frame, emit_frames],
    emit_restores_emitter_fields (fun n => if n = 1 then [2] else []) 2 1 5
      ⟨none, none, 0, []⟩ ⟨none, none, 0, [1, 2]⟩ (fun _ => rfl)
      (by simp [emit_frame, emit_frames])⟩

/-- A successful cache lookup yields an entry of the cache. -/
theorem cache_lookup_mem (l : List (Nat × Nat)) (b t : Nat)
    (h : cache_lookup l b = some t) : (b, t) ∈ l := by
  induction l with
  | nil => cases h
  | cons p rest ih =>
    obtain ⟨k, v⟩ := p
    by_cases hb : b = k
    · subst hb
      simp [cache_lookup] at h
      simp [h]
    · simp [cache_lookup, hb] at h
      exact List.mem_cons_of_mem _ (ih h)

/-- One block visit preserves the caching invariant. -/
theorem visit_block_inv (ih : Nat → Bool) (cp : Nat → Nat) (b : Nat)
    (st st2 : EmitVisitState) (hinv : VisitInv ih cp st)
    (h : emit_visit_block ih cp b st = some st2) : VisitInv ih cp st2 := by
  obtain ⟨inv1, inv2, inv3, inv4⟩ := hinv
  unfold emit_visit_block at h
  by_cases hh : ih b = true
  · rw [if_pos hh] at h
    cases hc : cache_lookup st.cache b with
    | some t =>
      rw [hc] at h
      cases h
      refine ⟨inv1, ?_, ?_, ?_⟩
      · intro x hx
        simpa using inv2 x hx
      · intro x tx hx
        simp at hx
        rcases hx with hx | ⟨rfl, rfl⟩
        · exact inv3 x tx hx
        · exact (inv1 _ _ (cache_lookup_mem _ _ _ hc)).2
      · intro x hx
        simp only [List.count_append]
        have hxb : x ≠ b := fun he => by rw [he, hh] at hx; cases hx
        have : (if b ∉ st.visited then b :: st.visited else st.visited) = st.visited ∨
            (if b ∉ st.visited then b :: st.visited else st.visited) = b :: st.visited := by
          split
          · exact .inr rfl
          · exact .inl rfl
        rcases this with hv | hv <;> simp only [hv]
        · exact inv4 x hx
        · rw [inv4 x hx]
          simp [List.mem_cons, hxb, Ne.symm hxb]
    | none =>
      rw [hc] at h
      cases h
      refine ⟨?_, ?_, ?_, ?_⟩
      · intro x tx hx
        simp at hx
        rcases hx with ⟨rfl, rfl⟩ | hx
        · exact ⟨hh, rfl⟩
        · exact inv1 x tx hx
      · intro x hx
        simp only [List.count_append]
        by_cases hxb : x = b
        · subst hxb
          have h0 : st.computeLog.count x = 0 := by
            rw [inv2 x hx, hc]; rfl
          simp [h0, cache_lookup]
        · rw [inv2 x hx]
          simp [cache_lookup, hxb, List.count_cons, Ne.symm hxb]
      · intro x tx hx
        simp at hx
        rcases hx with hx | ⟨rfl, rfl⟩
        · exact inv3 x tx hx
        · rfl
      · intro x hx
        simp only [List.count_append]
        have hxb : x ≠ b := fun he => by rw [he, hh] at hx; cases hx
        have : (if b ∉ st.visited then b :: st.visited else st.visited) = st.visited ∨
            (if b ∉ st.visited then b :: st.visited else st.visited) = b :: st.visited := by
          split
          · exact .inr rfl
          · exact .inl rfl
        rw [List.count_cons]
        rcases this with hv | hv <;> simp only [hv]
        · simp [inv4 x hx, hxb, Ne.symm hxb]
        · rw [inv4 x hx]
          simp [List.mem_cons, hxb, Ne.symm hxb]
  · have hh2 : ih b = false := by
      cases hb2 : ih b
      · rfl
      · exact absurd hb2 hh
    rw [if_neg hh] at h
    by_cases hfirst : b ∉ st.visited
    · rw [if_pos hfirst] at h
      cases h
      refine ⟨inv1, ?_, ?_, ?_⟩
      · intro x hx
        simp only [List.count_append]
        have hxb : x ≠ b := fun he => by rw [he, hh2] at hx; cases hx
        rw [inv2 x hx, List.count_cons]
        simp [hxb, Ne.symm hxb]
      · intro x tx hx
        simp at hx
        rcases hx with hx | ⟨rfl, rfl⟩
        · exact inv3 x tx hx
        · rfl
      · intro x hx
        simp only [List.count_append, if_pos hfirst]
        rw [List.count_cons]
        by_cases hxb : x = b
        · subst hxb
          have h0 : st.computeLog.count x = 0 := by
            rw [inv4 x hx]
            simp [hfirst]
          simp [h0]
        · rw [inv4 x hx]
          simp only [List.mem_cons]
          have hbx : ¬b = x := Ne.symm hxb
          simp [hbx, hxb]
    · rw [if_neg hfirst] at h
      cases h

/-- A visit sequence preserves the caching invariant. -/
theorem visit_run_inv (ih : Nat → Bool) (cp : Nat → Nat) (vs : List Nat)
    (st st2 : EmitVisitState) (hinv : VisitInv ih cp st)
    (h : emit_visit_run ih cp vs st = some st2) : VisitInv ih cp st2 := by
  induction vs generalizing st with
  | nil => cases h; exact hinv
  | cons b rest ihr =>
    unfold emit_visit_run at h
    cases hb : emit_visit_block ih cp b st with
    | none => rw [hb] at h; cases h
    | some st1 =>
      rw [hb] at h
      exact ihr st1 (visit_block_inv ih cp b st st1 hinv hb) h

/-- One block visit adds exactly its block to the visited set, and a
successful visit to a non-header block requires that it was unvisited. -/
theorem visit_block_visited (ih : Nat → Bool) (cp : Nat → Nat) (b : Nat)
    (st st2 : EmitVisitState) (h : emit_visit_block ih cp b st = some st2) :
    (∀ x, x ∈ st2.visited ↔ x ∈ st.visited ∨ x = b) ∧
    (ih b = false → b ∉ st.visited) := by
  unfold emit_visit_block at h
  by_cases hh : ih b = true
  · rw [if_pos hh] at h
    have hvis : ∀ x, x ∈ (if b ∉ st.visited then b :: st.visited else st.visited) ↔
        x ∈ st.visited ∨ x = b := by
      intro x
      split
      · simp [List.mem_cons, or_comm]
      · next hin =>
        simp only [not_not] at hin
        constructor
        · exact .inl
        · rintro (hx | rfl)
          · exact hx
          · exact hin
    cases hc : cache_lookup st.cache b with
    | some t =>
      rw [hc] at h; cases h
      exact ⟨hvis, fun hf => by rw [hh] at hf; cases hf⟩
    | none =>
      rw [hc] at h; cases h
      exact ⟨hvis, fun hf => by rw [hh] at hf; cases hf⟩
  · rw [if_neg hh] at h
    by_cases hfirst : b ∉ st.visited
    · rw [if_pos hfirst] at h
      cases h
      exact ⟨fun x => by simp [hfirst, List.mem_cons, or_comm], fun _ => hfirst⟩
    · rw [if_neg hfirst] at h
      cases h

/-- After a visit sequence, the visited set is the initial one plus the sequence. -/
theorem visit_run_visited (ih : Nat → Bool) (cp : Nat → Nat) (vs : List Nat)
    (st st2 : EmitVisitState) (h : emit_visit_run ih cp vs st = some st2) :
    ∀ x, x ∈ st2.visited ↔ x ∈ st.visited ∨ x ∈ vs := by
  induction vs generalizing st with
  | nil => cases h; simp
  | cons b rest ihr =>
    unfold emit_visit_run at h
    cases hb : emit_visit_block ih cp b st with
    | none => rw [hb] at h; cases h
    | some st1 =>
      rw [hb] at h
      intro x
      rw [ihr st1 h x, (visit_block_visited ih cp b st st1 hb).1 x]
      simp [List.mem_cons]
      tauto

/-- A successful visit sequence contains each non-header block at most once
(counting a previous visit recorded in the entry state). -/
theorem visit_run_nonheader_once (ih : Nat → Bool) (cp : Nat → Nat) (vs : List Nat)
    (st st2 : EmitVisitState) (h : emit_visit_run ih cp vs st = some st2)
    (x : Nat) (hx : ih x = false) :
    vs.count x + (if x ∈ st.visited then 1 else 0) ≤ 1 := by
  induction vs generalizing st with
  | nil => simp; split <;> omega
  | cons b rest ihr =>
    unfold emit_visit_run at h
    cases hb : emit_visit_block ih cp b st with
    | none => rw [hb] at h; cases h
    | some st1 =>
      rw [hb] at h
      have hih := ihr st1 h
      have hmem := (visit_block_visited ih cp b st st1 hb).1 x
      by_cases hxb : x = b
      · subst hxb
        have hnot : x ∉ st.visited := (visit_block_visited ih cp x st st1 hb).2 hx
        have hin : x ∈ st1.visited := hmem.2 (.inr rfl)
        rw [List.count_cons_self]
        rw [if_pos hin] at hih
        rw [if_neg hnot]
        omega
      · rw [List.count_cons_of_ne hxb]
        have : (x ∈ st1.visited) ↔ (x ∈ st.visited) := by
          rw [hmem]
          simp [hxb]
        by_cases hv : x ∈ st.visited
        · rw [if_pos hv]
          rw [if_pos (this.2 hv)] at hih
          omega
        · rw [if_neg hv]
          rw [if_neg (fun hc => hv (this.1 hc))] at hih
          omega

/-- Claim C9: over one function lowering, the (dependency graph, tree graph,
schedule) triple is computed at most once per loop-header block and the
memoized triple is served on every visit; every non-loop-header block is
visited at most once (a second visit aborts the run), its triple is computed
fresh on that single visit, and it is never cached. -/
theorem header_cache_and_single_visit_discipline
    (is_loop_header : Nat → Bool) (compute : Nat → Nat) (vs : List Nat)
    (st : EmitVisitState)
    (h : emit_visit_run is_loop_header compute vs ⟨[], [], [], []⟩ = some st) :
    (∀ b, is_loop_header b = true → st.computeLog.count b ≤ 1) ∧
    (∀ b t, (b, t) ∈ st.serveLog → t = compute b) ∧
    (∀ b, is_loop_header b = false →
      cache_lookup st.cache b = none ∧ st.computeLog.count b = vs.count b) ∧
    (∀ b, is_loop_header b = false → vs.count b ≤ 1) := by
  have hinit : VisitInv is_loop_header compute ⟨[], [], [], []⟩ := by
    refine ⟨?_, ?_, ?_, ?_⟩
    · intro b t hbt; cases hbt
    · intro b hb; simp [cache_lookup]
    · intro b t hbt; cases hbt
    · intro b hb; simp
  have hinv := visit_run_inv is_loop_header compute vs _ st hinit h
  obtain ⟨inv1, inv2, inv3, inv4⟩ := hinv
  have hcount : ∀ b, is_loop_header b = false → vs.count b ≤ 1 := by
    intro b hb
    have := visit_run_nonheader_once is_loop_header compute vs _ st h b hb
    simpa using this
  refine ⟨?_, inv3, ?_, hcount⟩
  · intro b hb
    rw [inv2 b hb]
    split <;> omega
  · intro b hb
    have hnone : cache_lookup st.cache b = none := by
      cases hc : cache_lookup st.cache b with
      | none => rfl
      | some t =>
        have := (inv1 b t (cache_lookup_mem _ _ _ hc)).1
        rw [this] at hb
        cases hb
    refine ⟨hnone, ?_⟩
    have hmem := visit_run_visited is_loop_header compute vs _ st h b
    simp only [List.mem_nil_iff, false_or] at hmem
    rw [inv4 b hb]
    by_cases hv : b ∈ vs
    · rw [if_pos (hmem.2 hv)]
      have h1 : 0 < vs.count b := List.count_pos_iff.2 hv
      have h2 : vs.count b ≤ 1 := hcount b hb
      omega
    · rw [if_neg (fun hc => hv (hmem.1 hc))]
      exact (List.count_eq_zero.2 hv).symm

/-- Witness for claim C9: a run visiting header 7 three times and normal
block 3 once computes the triple of 7 exactly once, serves the memoized
triple on the repeat visits, and computes block 3 fresh without caching. -/
theorem header_cache_witness :
    emit_visit_run (fun b => b == 7) (fun b => b * 10) [7, 3, 7, 7] ⟨[], [], [], []⟩ =
      some ⟨[(7, 70)], [3, 7], [7, 3], [(7, 70), (3, 30), (7, 70), (7, 70)]⟩ ∧
    ([7, 3] : List Nat).count 7 ≤ 1 ∧
    (70 = 7 * 10 ∧ 30 = 3 * 10) ∧
    cache_lookup [(7, 70)] 3 = none ∧
    ([7, 3] : List Nat).count 3 = ([7, 3, 7, 7] : List Nat).count 3 ∧
    ([7, 3, 7, 7] : List Nat).count 3 ≤ 1 := by
  have hrun : emit_visit_run (fun b => b == 7) (fun b => b * 10) [7, 3, 7, 7]
      ⟨[], [], [], []⟩ =
      some ⟨[(7, 70)], [3, 7], [7, 3], [(7, 70), (3, 30), (7, 70), (7, 70)]⟩ := by decide
  have hmain := header_cache_and_single_visit_discipline (fun b => b == 7)
    (fun b => b * 10) [7, 3, 7, 7] _ hrun
  refine ⟨hrun, hmain.1 7 rfl, ⟨hmain.2.1 7 70 (by decide), hmain.2.1 3 30 (by decide)⟩,
    (hmain.2.2.1 3 rfl).1, (hmain.2.2.1 3 rfl).2, hmain.2.2.2 3 rfl⟩
